import Mathlib

/-!
Shallow embedding of the dbf package (src/dbf.go): a reader for dBase III+
table files with the cp1251 (Windows-1251) code page.  Byte streams are
modelled as lists of natural numbers together with a cursor and a fault
model for the underlying io.ReadSeeker; machine integers are modelled as
Nat/Int with explicit wrapping where the source can overflow.
-/

namespace Dbf

/-- Model of an io.ReadSeeker: the byte contents of the stream, the cursor
position, and fault injection describing which seeks and which byte
positions the underlying stream fails on (the error payload is an abstract
numeric code; code 0 stands for the end-of-stream failure). -/
structure RS where
  bytes : List Nat
  pos : Nat
  badSeek : Nat → Option Nat
  badRead : Nat → Option Nat

/-- Function tag of a strconv NumError (which strconv function failed). -/
inductive NumFn
  | parseFloatFn
  | atoiFn
deriving DecidableEq, Repr

/-- Errors produced by the package, one constructor per distinct Go error,
carrying exactly the data the Go error message formats. -/
inductive Err
  | io (code : Nat)
  | unsupportedVersion (v : Nat)
  | unrecognizedFieldType (t : Nat)
  | headerLengthMismatch (declared : Nat) (found : Nat)
  | recordDeleted (index : Nat)
  | corruptDeletionFlag (index : Nat) (flag : Nat)
  | numError (fn : NumFn) (num : List Nat)
deriving DecidableEq, Repr

/-- Seek to an absolute offset: fails with the injected error if the stream
fails this seek, otherwise moves the cursor. -/
def seek (rs : RS) (off : Nat) : Except Err RS :=
  match rs.badSeek off with
  | some c => Except.error (Err.io c)
  | none => Except.ok { rs with pos := off }

/-- First injected read fault in the n positions starting at p, if any. -/
def firstBadRead (g : Nat → Option Nat) (p : Nat) : Nat → Option Nat
  | 0 => none
  | n + 1 =>
    match g p with
    | some c => some c
    | none => firstBadRead g (p + 1) n

/-- The n bytes of l starting at position p. -/
def sliceAt (l : List Nat) (p n : Nat) : List Nat := (l.drop p).take n

/-- Read exactly n bytes (the io.ReadFull semantics used by binary.Read):
zero-length reads always succeed; otherwise an injected fault or running
past the end of the stream is an I/O error. -/
def readBytes (rs : RS) (n : Nat) : Except Err (List Nat × RS) :=
  if n = 0 then Except.ok ([], rs)
  else
    match firstBadRead rs.badRead rs.pos n with
    | some c => Except.error (Err.io c)
    | none =>
      if rs.pos + n ≤ rs.bytes.length then
        Except.ok (sliceAt rs.bytes rs.pos n, { rs with pos := rs.pos + n })
      else Except.error (Err.io 0)

/-! Go strings.TrimSpace, faithfully: it trims leading and trailing runes
satisfying unicode.IsSpace, decoding UTF-8 with utf8.DecodeRune and
utf8.DecodeLastRune (invalid bytes decode to the replacement rune 0xFFFD,
which is not white space). -/

/-- unicode.IsSpace on a rune (the White_Space property). -/
def isSpaceRune (r : Nat) : Bool :=
  decide (r = 9 ∨ r = 10 ∨ r = 11 ∨ r = 12 ∨ r = 13 ∨ r = 32 ∨ r = 0x85 ∨
    r = 0xA0 ∨ r = 0x1680 ∨ (0x2000 ≤ r ∧ r ≤ 0x200A) ∨ r = 0x2028 ∨
    r = 0x2029 ∨ r = 0x202F ∨ r = 0x205F ∨ r = 0x3000)

/-- utf8.DecodeRune: the first rune of a byte list and the number of bytes
it occupies; an empty input yields (0xFFFD, 0), an invalid encoding yields
(0xFFFD, 1). -/
def utf8DecodeFirst : List Nat → Nat × Nat
  | [] => (0xFFFD, 0)
  | b0 :: rest =>
    if b0 < 0x80 then (b0, 1)
    else if b0 < 0xC2 then (0xFFFD, 1)
    else if b0 < 0xE0 then
      match rest with
      | b1 :: _ =>
        if 0x80 ≤ b1 ∧ b1 < 0xC0 then ((b0 - 0xC0) * 64 + (b1 - 0x80), 2)
        else (0xFFFD, 1)
      | [] => (0xFFFD, 1)
    else if b0 < 0xF0 then
      match rest with
      | b1 :: b2 :: _ =>
        if (if b0 = 0xE0 then 0xA0 ≤ b1 ∧ b1 < 0xC0
            else if b0 = 0xED then 0x80 ≤ b1 ∧ b1 < 0xA0
            else 0x80 ≤ b1 ∧ b1 < 0xC0) ∧ (0x80 ≤ b2 ∧ b2 < 0xC0) then
          ((b0 - 0xE0) * 4096 + (b1 - 0x80) * 64 + (b2 - 0x80), 3)
        else (0xFFFD, 1)
      | _ => (0xFFFD, 1)
    else if b0 < 0xF5 then
      match rest with
      | b1 :: b2 :: b3 :: _ =>
        if (if b0 = 0xF0 then 0x90 ≤ b1 ∧ b1 < 0xC0
            else if b0 = 0xF4 then 0x80 ≤ b1 ∧ b1 < 0x90
            else 0x80 ≤ b1 ∧ b1 < 0xC0) ∧ (0x80 ≤ b2 ∧ b2 < 0xC0) ∧
            (0x80 ≤ b3 ∧ b3 < 0xC0) then
          ((b0 - 0xF0) * 262144 + (b1 - 0x80) * 4096 + (b2 - 0x80) * 64 + (b3 - 0x80), 4)
        else (0xFFFD, 1)
      | _ => (0xFFFD, 1)
    else (0xFFFD, 1)

/-- utf8.RuneStart: a byte that is not a continuation byte. -/
def runeStart (b : Nat) : Bool := decide (b < 0x80 ∨ 0xC0 ≤ b)

/-- The candidate start position of the last rune: the largest position k
with lim ≤ k ≤ n - 2 holding a non-continuation byte, searching at most the
last four bytes, exactly as the backward loop of utf8.DecodeLastRune. -/
def lastStartPos (s : List Nat) (n lim : Nat) : Option Nat :=
  if 2 ≤ n ∧ lim ≤ n - 2 ∧ runeStart (s.getD (n - 2) 0) then some (n - 2)
  else if 3 ≤ n ∧ lim ≤ n - 3 ∧ runeStart (s.getD (n - 3) 0) then some (n - 3)
  else if 4 ≤ n ∧ lim ≤ n - 4 ∧ runeStart (s.getD (n - 4) 0) then some (n - 4)
  else none

/-- utf8.DecodeLastRune: the last rune of a byte list and its size in
bytes; empty input yields (0xFFFD, 0), an invalid encoding (0xFFFD, 1). -/
def utf8DecodeLast (s : List Nat) : Nat × Nat :=
  let n := s.length
  if n = 0 then (0xFFFD, 0)
  else
    let last := s.getD (n - 1) 0
    if last < 0x80 then (last, 1)
    else
      let lim := n - 4
      let st :=
        match lastStartPos s n lim with
        | some k => k
        | none => lim - 1
      let d := utf8DecodeFirst (s.drop st)
      if st + d.2 = n then d else (0xFFFD, 1)

/-- Trim leading white-space runes (strings.TrimLeftFunc with
unicode.IsSpace).  The fuel argument only bounds the number of trimmed
runes: every trimmed rune occupies at least one byte, so fuel equal to the
byte length makes the recursion equivalent to the unbounded loop. -/
def trimLeftSpaceAux : Nat → List Nat → List Nat
  | 0, s => s
  | fuel + 1, s =>
    if s = [] then []
    else if isSpaceRune (utf8DecodeFirst s).1 then
      trimLeftSpaceAux fuel (s.drop (utf8DecodeFirst s).2)
    else s

def trimLeftSpace (s : List Nat) : List Nat := trimLeftSpaceAux s.length s

/-- Trim trailing white-space runes (strings.TrimRightFunc with
unicode.IsSpace, decoding runes from the end of the string); fuel as in
trimLeftSpaceAux. -/
def trimRightSpaceAux : Nat → List Nat → List Nat
  | 0, s => s
  | fuel + 1, s =>
    if 1 ≤ (utf8DecodeLast s).2 ∧ isSpaceRune (utf8DecodeLast s).1 then
      trimRightSpaceAux fuel (s.take (s.length - (utf8DecodeLast s).2))
    else s

def trimRightSpace (s : List Nat) : List Nat := trimRightSpaceAux s.length s

/-- Go strings.TrimSpace on the raw bytes of a Go string. -/
def trimSpace (s : List Nat) : List Nat := trimRightSpace (trimLeftSpace s)

/-! The golang.org/x/text charmap.Windows1251 decoder: every byte decodes
to exactly one rune (bytes below 0x80 to themselves), so decoding never
fails; the result is the UTF-8 encoding of the decoded runes. -/

/-- Decode table for bytes 0x80 through 0xBF of Windows-1251 (bytes 0xC0
through 0xFF map onto the contiguous Cyrillic block starting at 0x410). -/
def win1251Table : List Nat :=
  [0x402, 0x403, 0x201A, 0x453, 0x201E, 0x2026, 0x2020, 0x2021,
   0x20AC, 0x2030, 0x409, 0x2039, 0x40A, 0x40C, 0x40B, 0x40F,
   0x452, 0x2018, 0x2019, 0x201C, 0x201D, 0x2022, 0x2013, 0x2014,
   0x98, 0x2122, 0x459, 0x203A, 0x45A, 0x45C, 0x45B, 0x45F,
   0xA0, 0x40E, 0x45E, 0x408, 0xA4, 0x490, 0xA6, 0xA7,
   0x401, 0xA9, 0x404, 0xAB, 0xAC, 0xAD, 0xAE, 0x407,
   0xB0, 0xB1, 0x406, 0x456, 0x491, 0xB5, 0xB6, 0xB7,
   0x451, 0x2116, 0x454, 0xBB, 0x458, 0x405, 0x455, 0x457]

/-- The rune a single byte decodes to under Windows-1251. -/
def win1251Rune (b : Nat) : Nat :=
  if b < 0x80 then b
  else if 0xC0 ≤ b then 0x410 + (b - 0xC0)
  else win1251Table.getD (b - 0x80) 0xFFFD

/-- UTF-8 encoding of one rune. -/
def utf8EncodeRune (r : Nat) : List Nat :=
  if r < 0x80 then [r]
  else if r < 0x800 then [0xC0 + r / 64, 0x80 + r % 64]
  else if r < 0x10000 then [0xE0 + r / 4096, 0x80 + r / 64 % 64, 0x80 + r % 64]
  else [0xF0 + r / 262144, 0x80 + r / 4096 % 64, 0x80 + r / 64 % 64, 0x80 + r % 64]

/-- charmap.Windows1251.NewDecoder().String: decode every byte and encode
the resulting runes in UTF-8 (the bytes of the resulting Go string). -/
def decodeWin1251 (s : List Nat) : List Nat :=
  ((s.map win1251Rune).map utf8EncodeRune).flatten

/-! Models of the strconv number parsers used by the decoder.  The value a
well-formed literal denotes is kept exactly (as a rational, or as an
infinity or NaN marker); the rounding of that exact value to a 64-bit
float is not modelled, while the overflow range error of ParseFloat (which
makes the Go call return a non-nil error) is. -/

/-- ASCII lower-casing of one byte (strconv lower). -/
def lowerByte (c : Nat) : Nat := if 65 ≤ c ∧ c ≤ 90 then c + 32 else c

def isDigitB (c : Nat) : Bool := decide (48 ≤ c ∧ c ≤ 57)

def isHexLetter (c : Nat) : Bool := decide (97 ≤ lowerByte c ∧ lowerByte c ≤ 102)

def hexVal (c : Nat) : Nat := if isDigitB c then c - 48 else lowerByte c - 97 + 10

/-- Split an optional leading plus or minus sign; true means negative. -/
def splitSign (s : List Nat) : Bool × List Nat :=
  match s with
  | 43 :: r => (false, r)
  | 45 :: r => (true, r)
  | _ => (false, s)

/-- strconv.Atoi, equivalently ParseInt(s, 10, 0) on a 64-bit platform: an
optional sign followed by at least one decimal digit (no underscores in
base 10), failing outside the int64 range. -/
def atoi (s : List Nat) : Option Int :=
  let p := splitSign s
  if p.2 = [] then none
  else if p.2.all isDigitB then
    let v : Int := (p.2.foldl (fun a c => a * 10 + (c - 48)) 0 : Nat)
    let v := if p.1 then -v else v
    if -(2 ^ 63 : Int) ≤ v ∧ v ≤ 2 ^ 63 - 1 then some v else none
  else none

/-- State of the mantissa scan of strconv readFloat. -/
structure MScan where
  m : Nat
  frac : Nat
  sawDot : Bool
  sawDig : Bool

/-- Mantissa scan of strconv readFloat: consume digits, loose underscores
and at most one dot (a second dot stops the scan), accumulating the digit
string value and the count of digits after the dot. -/
def scanMantissa (hex : Bool) (st : MScan) : List Nat → MScan × List Nat
  | [] => (st, [])
  | c :: r =>
    if c = 95 then scanMantissa hex st r
    else if c = 46 then
      if st.sawDot then (st, c :: r)
      else scanMantissa hex { st with sawDot := true } r
    else if isDigitB c ∨ (hex ∧ isHexLetter c) then
      scanMantissa hex
        { st with
          m := st.m * (if hex then 16 else 10) + hexVal c
          frac := st.frac + (if st.sawDot then 1 else 0)
          sawDig := true } r
    else (st, c :: r)

/-- Exponent digit scan: consume decimal digits and loose underscores. -/
def scanExpDigits (v : Nat) : List Nat → Nat × List Nat
  | [] => (v, [])
  | c :: r =>
    if c = 95 then scanExpDigits v r
    else if isDigitB c then scanExpDigits (v * 10 + (c - 48)) r
    else (v, c :: r)

/-- Exponent part after the e or p marker: optional sign then at least one
decimal digit, consuming the whole remaining input. -/
def parseExp (l : List Nat) : Option Int :=
  let p := splitSign l
  match p.2 with
  | [] => none
  | c :: _ =>
    if isDigitB c then
      let q := scanExpDigits 0 p.2
      if q.2 = [] then some (if p.1 then -(q.1 : Int) else (q.1 : Int)) else none
    else none

/-- The strconv underscoreOK scan state: 0 after a digit or base prefix, 1
after an underscore, 2 otherwise. -/
def underscoreOKAux (hex : Bool) (saw : Nat) : List Nat → Bool
  | [] => saw ≠ 1
  | c :: r =>
    if isDigitB c ∨ (hex ∧ isHexLetter c) then underscoreOKAux hex 0 r
    else if c = 95 then (if saw = 0 then underscoreOKAux hex 1 r else false)
    else if saw = 1 then false
    else underscoreOKAux hex 2 r

/-- strconv underscoreOK: underscores must separate successive digits or
follow a base prefix. -/
def underscoreOK (s : List Nat) : Bool :=
  let s1 := (splitSign s).2
  match s1 with
  | 48 :: x :: r =>
    if lowerByte x = 98 ∨ lowerByte x = 111 ∨ lowerByte x = 120 then
      underscoreOKAux (lowerByte x = 120) 0 r
    else underscoreOKAux false 2 s1
  | _ => underscoreOKAux false 2 s1

def signApply (neg : Bool) (q : Rat) : Rat := if neg then -q else q

/-- The numeric (non special) part of strconv.ParseFloat: a decimal
mantissa with optional dot and optional e exponent, or a 0x hex mantissa
with a mandatory p exponent; the exact value denoted is returned. -/
def parseFloatNum (neg : Bool) (r : List Nat) : Option Rat :=
  let hex :=
    match r with
    | 48 :: x :: _ => lowerByte x = 120
    | _ => false
  let body := if hex then r.drop 2 else r
  let p := scanMantissa hex ⟨0, 0, false, false⟩ body
  if ¬ p.1.sawDig then none
  else
    let base : Rat := if hex then 16 else 10
    let mant : Rat := (p.1.m : Rat) / base ^ p.1.frac
    match p.2 with
    | [] => if hex then none else some (signApply neg mant)
    | c :: r2 =>
      if hex then
        if lowerByte c = 112 then
          match parseExp r2 with
          | some e => some (signApply neg (mant * (2 : Rat) ^ e))
          | none => none
        else none
      else
        if lowerByte c = 101 then
          match parseExp r2 with
          | some e => some (signApply neg (mant * (10 : Rat) ^ e))
          | none => none
        else none

/-- Exact value of a parsed floating-point literal, or an infinity or NaN
marker from the special spellings. -/
inductive FloatVal
  | num (q : Rat)
  | inf (neg : Bool)
  | nan
deriving DecidableEq, Repr

def ratAbs (q : Rat) : Rat := if q < 0 then -q else q

/-- Smallest magnitude that rounds to an infinity in float64; at or above
it ParseFloat returns a range error, which is a non-nil error. -/
def ovfBound : Rat := (2 : Rat) ^ (1024 : Nat) - (2 : Rat) ^ (970 : Nat)

/-- strconv.ParseFloat(s, 64): case-insensitive special spellings inf,
infinity (with optional sign) and nan; otherwise a numeric literal subject
to the underscore placement rule, failing on overflow. -/
def parseFloat (s : List Nat) : Option FloatVal :=
  if s.map lowerByte = [110, 97, 110] then some FloatVal.nan
  else
    let p := splitSign s
    let rl := p.2.map lowerByte
    if rl = [105, 110, 102] ∨ rl = [105, 110, 102, 105, 110, 105, 116, 121] then
      some (FloatVal.inf p.1)
    else if ¬ underscoreOK s then none
    else
      match parseFloatNum p.1 p.2 with
      | none => none
      | some q => if ovfBound ≤ ratAbs q then none else some (FloatVal.num q)

/-! The data model of the package: field descriptors, the reader, and the
dynamically typed record values. -/

/-- Little-endian 16-bit value at position k of a byte list. -/
def le16 (l : List Nat) (k : Nat) : Nat := l.getD k 0 + 256 * l.getD (k + 1) 0

/-- Little-endian 32-bit value at position k of a byte list. -/
def le32 (l : List Nat) (k : Nat) : Nat :=
  l.getD k 0 + 256 * l.getD (k + 1) 0 + 65536 * l.getD (k + 2) 0 +
    16777216 * l.getD (k + 3) 0

/-- One 32-byte field descriptor: 11-byte NUL-padded name, type tag byte,
32-bit on-disk offset, length byte, decimal place count byte (the trailing
14 reserved bytes are ignored). -/
structure Field where
  name : List Nat
  type : Nat
  offset : Nat
  len : Nat
  decimalPlaces : Nat
deriving DecidableEq, Repr

/-- Decoding of a 32-byte descriptor as binary.Read lays it out. -/
def parseField (bs : List Nat) : Field :=
  { name := bs.take 11
    type := bs.getD 11 0
    offset := le32 bs 12
    len := bs.getD 16 0
    decimalPlaces := bs.getD 17 0 }

/-- The zero value of the Field struct, which is what a failed binary.Read
during construction leaves behind. -/
def zeroField : Field :=
  { name := List.replicate 11 0, type := 0, offset := 0, len := 0, decimalPlaces := 0 }

/-- Field.validate: only the type tags C (67), N (78) and F (70) are
recognized. -/
def validate (f : Field) : Except Err Unit :=
  if f.type = 67 ∨ f.type = 78 ∨ f.type = 70 then Except.ok ()
  else Except.error (Err.unrecognizedFieldType f.type)

/-- Reader.FieldName: the descriptor name with trailing NUL bytes trimmed
(strings.TrimRight with the cutset of the single NUL byte). -/
def fieldName (f : Field) : List Nat := (f.name.reverse.dropWhile (fun b => b == 0)).reverse

/-- The parsed table handle (the stream itself is passed to Read
separately; the mutex serializing access is not part of the pure model). -/
structure Reader where
  year : Nat
  month : Nat
  day : Nat
  length : Nat
  fields : List Field
  headerLength : Nat
  recordLength : Nat
deriving Repr

/-- A dynamically typed field value: float64, int, or a Go string given by
its bytes. -/
inductive Value
  | vFloat (v : FloatVal)
  | vInt (z : Int)
  | vStr (bytes : List Nat)
deriving DecidableEq, Repr

/-- The Record map from field name to value. -/
abbrev Record := List (List Nat × Value)

/-- Map insertion: overwrite the entry of an existing key, else append. -/
def insertRec : Record → List Nat → Value → Record
  | [], n, v => [(n, v)]
  | (m, w) :: t, n, v =>
    if m = n then (m, v) :: t else (m, w) :: insertRec t n v

/-- Map lookup. -/
def lookupRec : Record → List Nat → Option Value
  | [], _ => none
  | (m, w) :: t, n => if m = n then some w else lookupRec t n

/-- Conversion of one field value (the switch on f.Type in Reader.Read,
applied to the already trimmed bytes): F parses a float, N parses an
integer, or a float when the descriptor declares decimal places, C decodes
Windows-1251, and any other tag keeps the raw text. -/
def convert (f : Field) (fieldVal : List Nat) : Except Err Value :=
  if f.type = 70 then
    if fieldVal.length = 0 then Except.ok (Value.vFloat (FloatVal.num 0))
    else
      match parseFloat fieldVal with
      | some v => Except.ok (Value.vFloat v)
      | none => Except.error (Err.numError NumFn.parseFloatFn fieldVal)
  else if f.type = 78 then
    if fieldVal.length = 0 then Except.ok (Value.vInt 0)
    else if 0 < f.decimalPlaces then
      match parseFloat fieldVal with
      | some v => Except.ok (Value.vFloat v)
      | none => Except.error (Err.numError NumFn.parseFloatFn fieldVal)
    else
      match atoi fieldVal with
      | some z => Except.ok (Value.vInt z)
      | none => Except.error (Err.numError NumFn.atoiFn fieldVal)
  else if f.type = 67 then
    if fieldVal.length = 0 then Except.ok (Value.vStr [])
    else Except.ok (Value.vStr (decodeWin1251 fieldVal))
  else Except.ok (Value.vStr fieldVal)

/-- The field loop of Reader.Read: for each descriptor in order, read
exactly len raw bytes, trim white space, convert, and insert under the
trimmed field name; the first failure aborts the whole read. -/
def fieldLoop : List Field → RS → Record → Except Err (Record × RS)
  | [], rs, rec => Except.ok (rec, rs)
  | f :: fs, rs, rec =>
    match readBytes rs f.len with
    | Except.error e => Except.error e
    | Except.ok (buf, rs2) =>
      match convert f (trimSpace buf) with
      | Except.error e => Except.error e
      | Except.ok v => fieldLoop fs rs2 (insertRec rec (fieldName f) v)

/-- The absolute byte offset of record i, as computed at the top of
Reader.Read: headerLength + recordLength * i. -/
def recOffset (r : Reader) (i : Nat) : Nat := r.headerLength + r.recordLength * i

/-- Reader.Read after the seek: read the one deletion-flag byte, branch on
it, then run the field loop on a live record. -/
def readBody (r : Reader) (i : Nat) (rs1 : RS) : Except Err Record :=
  match readBytes rs1 1 with
  | Except.error e => Except.error e
  | Except.ok (db, rs2) =>
    if db.getD 0 0 = 42 then Except.error (Err.recordDeleted i)
    else if db.getD 0 0 = 32 then
      match fieldLoop r.fields rs2 [] with
      | Except.error e => Except.error e
      | Except.ok (rec, _) => Except.ok rec
    else Except.error (Err.corruptDeletionFlag i (db.getD 0 0))

/-- Reader.Read: seek to the record offset — a seek failure is only
logged, the error is discarded and decoding continues from the current
cursor — then decode the record. -/
def Reader.Read (r : Reader) (i : Nat) (rs : RS) : Except Err Record :=
  match seek rs (recOffset r i) with
  | Except.error _ => readBody r i rs
  | Except.ok rs1 => readBody r i rs1

/-- Success facts of readBytes: the stream contents and fault model are
unchanged, the cursor advances by n, a nonzero read stayed within the
stream, and the bytes delivered are the slice at the old cursor. -/
theorem readBytes_ok {rs : RS} {n : Nat} {bs : List Nat} {rs2 : RS}
    (h : readBytes rs n = Except.ok (bs, rs2)) :
    rs2.bytes = rs.bytes ∧ rs2.badSeek = rs.badSeek ∧ rs2.badRead = rs.badRead ∧
    rs2.pos = rs.pos + n ∧ (n ≠ 0 → rs.pos + n ≤ rs.bytes.length) ∧
    bs = sliceAt rs.bytes rs.pos n := by
  unfold readBytes at h
  split at h
  · rename_i hn
    subst hn
    simp only [Except.ok.injEq, Prod.mk.injEq] at h
    obtain ⟨h1, h2⟩ := h
    subst h2
    simp [sliceAt, ← h1]
  · split at h
    · exact absurd h (by simp)
    · split at h
      · rename_i hle
        simp only [Except.ok.injEq, Prod.mk.injEq] at h
        obtain ⟨h1, h2⟩ := h
        subst h2
        simp_all
      · exact absurd h (by simp)

/-- The descriptor loop of NewReader: while the running uint16 offset is
below headerLength - 1 (computed with uint16 wrap), read one 32-byte
descriptor and validate it.  A failed descriptor read is only printed and
leaves the zero-valued Field, whose validation always fails with the
unrecognized type tag 0, so the loop returns that error (see
validate_zeroField below). -/
def descLoop (rs : RS) (bound offset : Nat) (acc : List Field) :
    Except Err (List Field × RS) :=
  if offset < bound then
    match h : readBytes rs 32 with
    | Except.error _ => Except.error (Err.unrecognizedFieldType 0)
    | Except.ok (bs, rs2) =>
      match validate (parseField bs) with
      | Except.error e => Except.error e
      | Except.ok _ => descLoop rs2 bound ((offset + 32) % 65536) (acc ++ [parseField bs])
  else Except.ok (acc, rs)
termination_by rs.bytes.length - rs.pos
decreasing_by
  obtain ⟨hb, -, -, hp, hle, -⟩ := readBytes_ok h
  have h32 : rs.pos + 32 ≤ rs.bytes.length := hle (by omega)
  rw [hb, hp]
  omega

/-- NewReader: seek to 0, read and check the 12-byte header, seek to 0x20,
read the descriptors, then require the next byte to be the header
terminator 0x0D. -/
def NewReader (rs : RS) : Except Err Reader :=
  match seek rs 0 with
  | Except.error e => Except.error e
  | Except.ok rs0 =>
    match readBytes rs0 12 with
    | Except.error e => Except.error e
    | Except.ok (hb, rs1) =>
      if hb.getD 0 0 = 3 then
        match seek rs1 32 with
        | Except.error e => Except.error e
        | Except.ok rs2 =>
          match descLoop rs2 ((le16 hb 8 + 65535) % 65536) 32 [] with
          | Except.error e => Except.error e
          | Except.ok (fields, rs3) =>
            match readBytes rs3 1 with
            | Except.error e => Except.error e
            | Except.ok (tb, rs4) =>
              if tb.getD 0 0 = 13 then
                Except.ok
                  { year := 1900 + hb.getD 1 0
                    month := hb.getD 2 0
                    day := hb.getD 3 0
                    length := le32 hb 4
                    fields := fields
                    headerLength := le16 hb 8
                    recordLength := le16 hb 10 }
              else Except.error (Err.headerLengthMismatch (le16 hb 8) (tb.getD 0 0))
  else Except.error (Err.unsupportedVersion (hb.getD 0 0))

/-! Specification-side descriptions used by the refinement claims.  These
definitions follow the wording of the specification; the theorems below
compare them with the behaviour of the translated code. -/

/-- Specification-side conversion of one field of a live record from its
raw bytes: trim white space, then by declared type — Float: empty is the
float zero, else the float parse; Numeric: empty is the integer zero, a
positive decimal-place count gives the float parse, else the integer
parse; Character: empty is the empty text, else the Windows-1251 decoding;
none marks the unparsable case the specification says must fail. -/
def specFieldValue (f : Field) (raw : List Nat) : Option Value :=
  let t := trimSpace raw
  if f.type = 70 then
    if t = [] then some (Value.vFloat (FloatVal.num 0))
    else (parseFloat t).map Value.vFloat
  else if f.type = 78 then
    if t = [] then some (Value.vInt 0)
    else if 0 < f.decimalPlaces then (parseFloat t).map Value.vFloat
    else (atoi t).map Value.vInt
  else if f.type = 67 then
    if t = [] then some (Value.vStr [])
    else some (Value.vStr (decodeWin1251 t))
  else none

/-- Total raw byte length of a list of fields. -/
def totalLen (fs : List Field) : Nat := (fs.map Field.len).sum

/-- Total raw byte length of the first j fields. -/
def prefLen (fs : List Field) (j : Nat) : Nat := ((fs.take j).map Field.len).sum

/-- The record built by inserting one value per field, in declared order,
under the trimmed field names. -/
def mkRecord (fs : List Field) (vs : List Value) : Record :=
  ((fs.map fieldName).zip vs).foldl (fun a p => insertRec a p.1 p.2) []

/-! Models of the machine-integer arithmetic of Reader.Read: the record
index is a uint16, the declared record count a uint32, and the offset is
computed in int64. -/

/-- A value representable in the uint16 type of the index parameter of
Reader.Read. -/
abbrev indexRepresentable (i : Nat) : Prop := i < 2 ^ 16

/-- A value representable in the uint32 NumberRecord field of the header. -/
abbrev countRepresentable (c : Nat) : Prop := c < 2 ^ 32

/-- Wrap of an integer into the int64 range, two-complement style. -/
def i64wrap (x : Int) : Int := (x + 2 ^ 63) % 2 ^ 64 - 2 ^ 63

/-- The offset computation of Reader.Read performed in int64 arithmetic:
int64(headerLength) + int64(recordLength) * int64(i), each operation
wrapped to the int64 range. -/
def recordOffsetI64 (hl rl i : Nat) : Int :=
  i64wrap ((hl : Int) + i64wrap ((rl : Int) * (i : Int)))

/-! Concrete fixtures: a table with a single Numeric field named ID of
length 3 and no decimal places, and streams exercising the paths of the
reader. -/

def fieldID : Field :=
  { name := [73, 68, 0, 0, 0, 0, 0, 0, 0, 0, 0], type := 78, offset := 0, len := 3,
    decimalPlaces := 0 }

def rdrW : Reader :=
  { year := 1995, month := 6, day := 15, length := 1, fields := [fieldID],
    headerLength := 0, recordLength := 4 }

def rsW : RS := ⟨[32, 32, 52, 50], 0, fun _ => none, fun _ => none⟩

def recW : Record := [([73, 68], Value.vInt 42)]

def rsBadNum : RS := ⟨[32, 32, 52, 120], 0, fun _ => none, fun _ => none⟩

def rsDel : RS := ⟨[42], 0, fun _ => none, fun _ => none⟩

def rsCor : RS := ⟨[88], 0, fun _ => none, fun _ => none⟩

def rsEmpty : RS := ⟨[], 0, fun _ => none, fun _ => none⟩

def rdrSeek : Reader :=
  { year := 1900, month := 0, day := 0, length := 0, fields := [], headerLength := 5,
    recordLength := 1 }

def rsSeekFail : RS :=
  ⟨[32], 0, fun k => if k = 5 then some 7 else none, fun _ => none⟩

def hdrBytes : List Nat := [3, 95, 6, 15, 1, 0, 0, 0, 65, 0, 4, 0]

def descIDBytes : List Nat :=
  [73, 68, 0, 0, 0, 0, 0, 0, 0, 0, 0, 78, 0, 0, 0, 0, 3, 0] ++ List.replicate 14 0

def descBadBytes : List Nat :=
  [73, 68, 0, 0, 0, 0, 0, 0, 0, 0, 0, 88, 0, 0, 0, 0, 3, 0] ++ List.replicate 14 0

def fileGood : List Nat :=
  hdrBytes ++ List.replicate 20 0 ++ descIDBytes ++ [13] ++ [32, 32, 52, 50]

def fileBadTerm : List Nat := hdrBytes ++ List.replicate 20 0 ++ descIDBytes ++ [7]

def fileShortDesc : List Nat := hdrBytes ++ List.replicate 20 0 ++ [73, 68]

def fileBadVersion : List Nat := [7, 95, 6, 15, 1, 0, 0, 0, 65, 0, 4, 0]

def fileBadType : List Nat := hdrBytes ++ List.replicate 20 0 ++ descBadBytes ++ [13]

def rsOf (l : List Nat) : RS := ⟨l, 0, fun _ => none, fun _ => none⟩

def rsAt (l : List Nat) (p : Nat) : RS := ⟨l, p, fun _ => none, fun _ => none⟩

def rdrGood : Reader :=
  { year := 1995, month := 6, day := 15, length := 1, fields := [fieldID],
    headerLength := 65, recordLength := 4 }

def fieldBad : Field :=
  { name := [73, 68, 0, 0, 0, 0, 0, 0, 0, 0, 0], type := 88, offset := 0, len := 3,
    decimalPlaces := 0 }

/-! Helper lemmas. -/

/-- Validation of the zero-valued descriptor always fails, reporting the
type tag 0. -/
theorem validate_zeroField : validate zeroField = Except.error (Err.unrecognizedFieldType 0) := rfl

theorem firstBadRead_none_of {g : Nat → Option Nat} {p n : Nat}
    (h : ∀ k, k < n → g (p + k) = none) : firstBadRead g p n = none := by
  induction n generalizing p with
  | zero => rfl
  | succ m ih =>
    have h0 : g p = none := by simpa using h 0 (by omega)
    unfold firstBadRead
    rw [h0]
    exact ih fun k hk => by
      have := h (k + 1) (by omega)
      simpa [Nat.add_assoc, Nat.add_comm 1 k] using this

/-- A read succeeds when no fault is injected in its range and it stays
within the stream. -/
theorem readBytes_eq_ok {rs : RS} {n : Nat}
    (hf : ∀ k, k < n → rs.badRead (rs.pos + k) = none)
    (hl : rs.pos + n ≤ rs.bytes.length) :
    readBytes rs n = Except.ok (sliceAt rs.bytes rs.pos n, { rs with pos := rs.pos + n }) := by
  unfold readBytes
  rcases Nat.eq_zero_or_pos n with hn | hn
  · subst hn
    simp [sliceAt]
  · rw [if_neg (by omega), firstBadRead_none_of hf, if_pos hl]

theorem sliceAt_one {l : List Nat} {p : Nat} (h : p < l.length) :
    sliceAt l p 1 = [l.getD p 0] := by
  unfold sliceAt
  rw [List.drop_eq_getElem_cons h, List.getD_eq_getElem l 0 h]
  rfl

theorem seek_none {rs : RS} {off : Nat} (h : rs.badSeek off = none) :
    seek rs off = Except.ok { rs with pos := off } := by
  unfold seek
  rw [h]

theorem seek_some {rs : RS} {off c : Nat} (h : rs.badSeek off = some c) :
    seek rs off = Except.error (Err.io c) := by
  unfold seek
  rw [h]

theorem lookupRec_insertRec_self (rec : Record) (n : List Nat) (v : Value) :
    lookupRec (insertRec rec n v) n = some v := by
  induction rec with
  | nil => simp [insertRec, lookupRec]
  | cons p t ih =>
    obtain ⟨m, w⟩ := p
    by_cases hm : m = n
    · simp [insertRec, lookupRec, hm]
    · simp [insertRec, lookupRec, hm, ih]

theorem lookupRec_insertRec_ne (rec : Record) (n m : List Nat) (v : Value)
    (h : m ≠ n) : lookupRec (insertRec rec n v) m = lookupRec rec m := by
  have h2 : n ≠ m := Ne.symm h
  induction rec with
  | nil => simp [insertRec, lookupRec, h2]
  | cons p t ih =>
    obtain ⟨a, w⟩ := p
    by_cases ha : a = n
    · have ham : a ≠ m := by rw [ha]; exact h2
      simp [insertRec, lookupRec, ha, ham, h2]
    · by_cases hb : a = m
      · simp [insertRec, lookupRec, ha, hb, h]
      · simp [insertRec, lookupRec, ha, hb, ih]

/-- Folding inserts whose keys avoid m does not change the value at m. -/
theorem lookupRec_foldl_not_mem (l : List (List Nat × Value)) (rec : Record)
    (m : List Nat) (h : m ∉ l.map Prod.fst) :
    lookupRec (l.foldl (fun a p => insertRec a p.1 p.2) rec) m = lookupRec rec m := by
  induction l generalizing rec with
  | nil => rfl
  | cons p t ih =>
    simp only [List.map_cons, List.mem_cons] at h
    push_neg at h
    simp only [List.foldl_cons]
    rw [ih _ h.2, lookupRec_insertRec_ne _ _ _ _ h.1]

/-- In a fold of inserts over pairs with pairwise distinct keys, the value
found at the j-th key is the j-th value. -/
theorem lookupRec_foldl_nodup (l : List (List Nat × Value)) (rec : Record)
    (hnd : (l.map Prod.fst).Nodup) (j : Nat) (hj : j < l.length) :
    lookupRec (l.foldl (fun a p => insertRec a p.1 p.2) rec)
        ((l.getD j ([], Value.vInt 0)).1)
      = some ((l.getD j ([], Value.vInt 0)).2) := by
  induction l generalizing rec j with
  | nil => exact absurd hj (by simp)
  | cons p t ih =>
    simp only [List.map_cons, List.nodup_cons] at hnd
    cases j with
    | zero =>
      simp only [List.getD_cons_zero, List.foldl_cons]
      rw [lookupRec_foldl_not_mem t _ _ hnd.1, lookupRec_insertRec_self]
    | succ k =>
      simp only [List.getD_cons_succ, List.foldl_cons]
      exact ih _ hnd.2 k (by simpa using hj)

theorem totalLen_nil : totalLen [] = 0 := rfl

theorem totalLen_cons (f : Field) (fs : List Field) :
    totalLen (f :: fs) = f.len + totalLen fs := by
  simp [totalLen]

theorem prefLen_zero (fs : List Field) : prefLen fs 0 = 0 := rfl

theorem prefLen_cons_succ (f : Field) (fs : List Field) (j : Nat) :
    prefLen (f :: fs) (j + 1) = f.len + prefLen fs j := by
  simp [prefLen]

/-- The conversion the code performs on the trimmed bytes agrees with the
specification-side description: equal successes, and where the
specification marks the text unparsable the code fails with a strconv
NumError on exactly the trimmed text. -/
theorem convert_trim_spec (f : Field) (raw : List Nat)
    (hv : f.type = 67 ∨ f.type = 78 ∨ f.type = 70) :
    (∀ v, convert f (trimSpace raw) = Except.ok v ↔ specFieldValue f raw = some v) ∧
    (specFieldValue f raw = none →
      ∃ fn, convert f (trimSpace raw) = Except.error (Err.numError fn (trimSpace raw))) := by
  rcases hv with h | h | h
  · constructor
    · intro v
      by_cases ht : trimSpace raw = []
      · simp [convert, specFieldValue, h, ht]
      · simp [convert, specFieldValue, h, ht, List.length_eq_zero]
    · intro hn
      exfalso
      by_cases ht : trimSpace raw = [] <;> simp [specFieldValue, h, ht] at hn
  · constructor
    · intro v
      by_cases ht : trimSpace raw = []
      · simp [convert, specFieldValue, h, ht]
      · by_cases hd : 0 < f.decimalPlaces
        · cases hp : parseFloat (trimSpace raw) <;>
            simp [convert, specFieldValue, h, ht, hd, List.length_eq_zero, hp]
        · cases ha : atoi (trimSpace raw) <;>
            simp [convert, specFieldValue, h, ht, hd, List.length_eq_zero, ha]
    · intro hn
      by_cases ht : trimSpace raw = []
      · simp [specFieldValue, h, ht] at hn
      · by_cases hd : 0 < f.decimalPlaces
        · cases hp : parseFloat (trimSpace raw)
          · exact ⟨NumFn.parseFloatFn, by
              simp [convert, h, ht, hd, List.length_eq_zero, hp]⟩
          · simp [specFieldValue, h, ht, hd, hp] at hn
        · cases ha : atoi (trimSpace raw)
          · exact ⟨NumFn.atoiFn, by
              simp [convert, h, ht, hd, List.length_eq_zero, ha]⟩
          · simp [specFieldValue, h, ht, hd, ha] at hn
  · constructor
    · intro v
      by_cases ht : trimSpace raw = []
      · simp [convert, specFieldValue, h, ht]
      · cases hp : parseFloat (trimSpace raw) <;>
          simp [convert, specFieldValue, h, ht, List.length_eq_zero, hp]
    · intro hn
      by_cases ht : trimSpace raw = []
      · simp [specFieldValue, h, ht] at hn
      · cases hp : parseFloat (trimSpace raw)
        · exact ⟨NumFn.parseFloatFn, by
            simp [convert, h, ht, List.length_eq_zero, hp]⟩
        · simp [specFieldValue, h, ht, hp] at hn

/-- Success facts of the field loop: the stream contents are unchanged,
the cursor advances by the total field length, and there is one converted
value per field — the conversion of the trimmed slice of the stream at the
position of that field — with the result record the fold of the inserts. -/
theorem fieldLoop_ok {fs : List Field} {rs : RS} {rec rec2 : Record} {rs2 : RS}
    (h : fieldLoop fs rs rec = Except.ok (rec2, rs2)) :
    rs2.bytes = rs.bytes ∧ rs2.pos = rs.pos + totalLen fs ∧
    ∃ vs : List Value, vs.length = fs.length ∧
      (∀ j, j < fs.length →
        convert (fs.getD j zeroField)
          (trimSpace (sliceAt rs.bytes (rs.pos + prefLen fs j) (fs.getD j zeroField).len))
          = Except.ok (vs.getD j (Value.vInt 0))) ∧
      rec2 = ((fs.map fieldName).zip vs).foldl (fun a p => insertRec a p.1 p.2) rec := by
  induction fs generalizing rs rec with
  | nil =>
    simp only [fieldLoop, Except.ok.injEq, Prod.mk.injEq] at h
    obtain ⟨h1, h2⟩ := h
    subst h1; subst h2
    exact ⟨rfl, by simp [totalLen], [], rfl, fun j hj => absurd hj (by simp), by simp⟩
  | cons f fs' ih =>
    simp only [fieldLoop] at h
    split at h
    · exact absurd h (by simp)
    · rename_i p buf rsA heq
      split at h
      · exact absurd h (by simp)
      · rename_i v hc
        obtain ⟨hAb, -, -, hAp, -, hbuf⟩ := readBytes_ok heq
        obtain ⟨h1, h2, vs', hlen, hconv, hrec⟩ := ih h
        refine ⟨by rw [h1, hAb], by rw [h2, hAp, totalLen_cons]; omega,
          v :: vs', by simp [hlen], ?_, ?_⟩
        · intro j hj
          cases j with
          | zero =>
            simpa [prefLen_zero, hAb, ← hbuf] using hc
          | succ k =>
            have hk : k < fs'.length := by simpa using hj
            have := hconv k hk
            rw [hAb, hAp] at this
            simpa [prefLen_cons_succ, Nat.add_assoc] using this
        · rw [hrec]
          simp

/-- If all reads of the field loop are available but the
specification-side conversion of some field marks its text unparsable, the loop fails
with a strconv NumError. -/
theorem fieldLoop_first_none {fs : List Field} {rs : RS} {rec : Record}
    (hv : ∀ f ∈ fs, f.type = 67 ∨ f.type = 78 ∨ f.type = 70)
    (hf : ∀ k, k < totalLen fs → rs.badRead (rs.pos + k) = none)
    (hl : rs.pos + totalLen fs ≤ rs.bytes.length)
    (hex : ∃ j, j < fs.length ∧
      specFieldValue (fs.getD j zeroField)
        (sliceAt rs.bytes (rs.pos + prefLen fs j) (fs.getD j zeroField).len) = none) :
    ∃ fn t, fieldLoop fs rs rec = Except.error (Err.numError fn t) := by
  induction fs generalizing rs rec with
  | nil =>
    obtain ⟨j, hj, -⟩ := hex
    exact absurd hj (by simp)
  | cons f fs' ih =>
    have hfv : f.type = 67 ∨ f.type = 78 ∨ f.type = 70 := hv f (by simp)
    have hr : readBytes rs f.len =
        Except.ok (sliceAt rs.bytes rs.pos f.len, { rs with pos := rs.pos + f.len }) := by
      refine readBytes_eq_ok (fun k hk => hf k ?_) ?_
      · rw [totalLen_cons]; omega
      · have := hl; rw [totalLen_cons] at this; omega
    have hstep : fieldLoop (f :: fs') rs rec =
        match convert f (trimSpace (sliceAt rs.bytes rs.pos f.len)) with
        | Except.error e => Except.error e
        | Except.ok v =>
          fieldLoop fs' { rs with pos := rs.pos + f.len } (insertRec rec (fieldName f) v) := by
      rw [fieldLoop, hr]
    cases hs : specFieldValue f (sliceAt rs.bytes rs.pos f.len) with
    | none =>
      obtain ⟨fn, hcv⟩ := (convert_trim_spec f _ hfv).2 hs
      exact ⟨fn, _, by rw [hstep, hcv]⟩
    | some v =>
      have hcv : convert f (trimSpace (sliceAt rs.bytes rs.pos f.len)) = Except.ok v :=
        (convert_trim_spec f _ hfv).1 v |>.mpr hs
      rw [hstep, hcv]
      refine ih (fun g hg => hv g (by simp [hg])) ?_ ?_ ?_
      · intro k hk
        have := hf (f.len + k) (by rw [totalLen_cons]; omega)
        simpa [Nat.add_assoc] using this
      · rw [totalLen_cons] at hl
        simpa [Nat.add_assoc] using hl
      · obtain ⟨j, hj, hn⟩ := hex
        cases j with
        | zero =>
          rw [prefLen_zero, Nat.add_zero] at hn
          simp only [List.getD_cons_zero] at hn
          rw [hn] at hs
          exact absurd hs (by simp)
        | succ k =>
          refine ⟨k, by simpa using hj, ?_⟩
          rw [prefLen_cons_succ, ← Nat.add_assoc] at hn
          simpa using hn

/-- Success shape of readBody: one deletion-flag byte was read, it was the
space character, and the field loop delivered the record. -/
theorem readBody_ok_destruct {r : Reader} {i : Nat} {rs1 : RS} {rec : Record}
    (h : readBody r i rs1 = Except.ok rec) :
    ∃ db rs2 rsF, readBytes rs1 1 = Except.ok (db, rs2) ∧ db.getD 0 0 = 32 ∧
      fieldLoop r.fields rs2 [] = Except.ok (rec, rsF) := by
  unfold readBody at h
  split at h
  · exact absurd h (by simp)
  · rename_i p db rs2 heq
    by_cases h42 : db.getD 0 0 = 42
    · rw [if_pos h42] at h
      exact absurd h (by simp)
    · rw [if_neg h42] at h
      by_cases h32 : db.getD 0 0 = 32
      · rw [if_pos h32] at h
        split at h
        · exact absurd h (by simp)
        · rename_i q rec' rsF hloop
          simp only [Except.ok.injEq] at h
          subst h
          exact ⟨db, rs2, rsF, heq, h32, hloop⟩
      · rw [if_neg h32] at h
        exact absurd h (by simp)

theorem read_eq_readBody_of_seek_none {r : Reader} {i : Nat} {rs : RS}
    (h : rs.badSeek (recOffset r i) = none) :
    Reader.Read r i rs = readBody r i { rs with pos := recOffset r i } := by
  unfold Reader.Read
  rw [seek_none h]

theorem read_eq_readBody_of_seek_some {r : Reader} {i : Nat} {rs : RS} {c : Nat}
    (h : rs.badSeek (recOffset r i) = some c) :
    Reader.Read r i rs = readBody r i rs := by
  unfold Reader.Read
  rw [seek_some h]

/-- Success shape of Reader.Read, for whatever cursor the seek attempt
left. -/
theorem read_ok_destruct {r : Reader} {i : Nat} {rs : RS} {rec : Record}
    (h : Reader.Read r i rs = Except.ok rec) :
    ∃ rs1 db rs2 rsF, readBytes rs1 1 = Except.ok (db, rs2) ∧ db.getD 0 0 = 32 ∧
      fieldLoop r.fields rs2 [] = Except.ok (rec, rsF) := by
  unfold Reader.Read at h
  split at h
  · exact ⟨rs, readBody_ok_destruct h⟩
  · rename_i rs1 heq
    exact ⟨rs1, readBody_ok_destruct h⟩

theorem validate_ok_type {f : Field} (h : validate f = Except.ok ()) :
    f.type = 67 ∨ f.type = 78 ∨ f.type = 70 := by
  by_cases hc : f.type = 67 ∨ f.type = 78 ∨ f.type = 70
  · exact hc
  · unfold validate at h
    rw [if_neg hc] at h
    exact absurd h (by simp)

/-- A descriptor read failure inside the loop makes the loop fail with the
unrecognized type tag 0 of the zero-valued descriptor. -/
theorem descLoop_read_error {rs : RS} {bound offset : Nat} {acc : List Field} {e : Err}
    (hlt : offset < bound) (h : readBytes rs 32 = Except.error e) :
    descLoop rs bound offset acc = Except.error (Err.unrecognizedFieldType 0) := by
  rw [descLoop, if_pos hlt]
  split
  · rfl
  · rename_i bs rs2 heq
    rw [h] at heq
    exact absurd heq (by simp)

/-- A descriptor with an invalid type tag makes the loop fail, naming the
tag. -/
theorem descLoop_invalid_type {rs : RS} {bound offset : Nat} {acc : List Field}
    {bs : List Nat} {rs2 : RS}
    (hlt : offset < bound) (h : readBytes rs 32 = Except.ok (bs, rs2))
    (hval : ¬((parseField bs).type = 67 ∨ (parseField bs).type = 78 ∨ (parseField bs).type = 70)) :
    descLoop rs bound offset acc = Except.error (Err.unrecognizedFieldType (parseField bs).type) := by
  rw [descLoop, if_pos hlt]
  split
  · rename_i a heq
    rw [h] at heq
    exact absurd heq (by simp)
  · rename_i bs2 rs22 heq
    rw [h] at heq
    simp only [Except.ok.injEq, Prod.mk.injEq] at heq
    obtain ⟨hbs, hrs⟩ := heq
    subst hbs
    subst hrs
    simp [validate, hval]

/-- Every field a successful descriptor loop delivers passed type-tag
validation. -/
theorem descLoop_ok_valid {fields : List Field} {rs3 : RS} (rs : RS)
    (bound offset : Nat) (acc : List Field) :
    descLoop rs bound offset acc = Except.ok (fields, rs3) →
    (∀ f ∈ acc, f.type = 67 ∨ f.type = 78 ∨ f.type = 70) →
    ∀ f ∈ fields, f.type = 67 ∨ f.type = 78 ∨ f.type = 70 := by
  induction rs, bound, offset, acc using descLoop.induct with
  | case1 rs bound offset acc hlt e hread =>
    intro h hacc
    rw [descLoop_read_error hlt hread] at h
    exact absurd h (by simp)
  | case2 rs bound offset acc hlt bs rs2 hread e hval =>
    intro h hacc
    rw [descLoop, if_pos hlt] at h
    split at h
    · exact absurd h (by simp)
    · rename_i bs2 rs22 heq
      rw [hread] at heq
      simp only [Except.ok.injEq, Prod.mk.injEq] at heq
      obtain ⟨hbs, hrs⟩ := heq
      subst hbs
      subst hrs
      simp [hval] at h
  | case3 rs bound offset acc hlt bs rs2 hread a hvalid ih =>
    intro h hacc
    rw [descLoop, if_pos hlt] at h
    split at h
    · exact absurd h (by simp)
    · rename_i bs2 rs22 heq
      rw [hread] at heq
      simp only [Except.ok.injEq, Prod.mk.injEq] at heq
      obtain ⟨hbs, hrs⟩ := heq
      subst hbs
      subst hrs
      simp only [hvalid] at h
      refine ih h ?_
      intro f hf
      rcases List.mem_append.mp hf with hf | hf
      · exact hacc f hf
      · simp only [List.mem_singleton] at hf
        subst hf
        cases a
        exact validate_ok_type hvalid
  | case4 rs bound offset acc hlt =>
    intro h hacc
    rw [descLoop] at h
    simp only [if_neg hlt, Except.ok.injEq, Prod.mk.injEq] at h
    obtain ⟨h1, -⟩ := h
    subst h1
    exact hacc

/-- When the header parses with the supported version, NewReader
propagates an error of the descriptor loop verbatim. -/
theorem newReader_desc_error {rs rs0 rs1 rs2 : RS} {hb : List Nat} {e : Err}
    (h0 : seek rs 0 = Except.ok rs0)
    (h1 : readBytes rs0 12 = Except.ok (hb, rs1))
    (h2 : hb.getD 0 0 = 3)
    (h3 : seek rs1 32 = Except.ok rs2)
    (h4 : descLoop rs2 ((le16 hb 8 + 65535) % 65536) 32 [] = Except.error e) :
    NewReader rs = Except.error e := by
  unfold NewReader
  simp only [h0, h1, h2, h3, h4, if_pos]

/-- Success shape of NewReader: its field list came from a successful run
of the descriptor loop. -/
theorem newReader_ok_fields {rs : RS} {reader : Reader}
    (h : NewReader rs = Except.ok reader) :
    ∃ rs2 bound rs3, descLoop rs2 bound 32 [] = Except.ok (reader.fields, rs3) := by
  unfold NewReader at h
  split at h
  · exact absurd h (by simp)
  · rename_i rs0 hs0
    split at h
    · exact absurd h (by simp)
    · rename_i p hb rs1 hr1
      split at h
      · rename_i hv3
        split at h
        · exact absurd h (by simp)
        · rename_i rs2 hs2
          split at h
          · exact absurd h (by simp)
          · rename_i q fields rs3 hdesc
            split at h
            · exact absurd h (by simp)
            · rename_i q2 tb rs4 hterm
              split at h
              · simp only [Except.ok.injEq] at h
                subst h
                exact ⟨rs2, (le16 hb 8 + 65535) % 65536, rs3, hdesc⟩
              · exact absurd h (by simp)
      · exact absurd h (by simp)

theorem i64wrap_eq_of_range {x : Int} (h0 : 0 ≤ x) (h1 : x < 2 ^ 63) :
    i64wrap x = x := by
  unfold i64wrap
  rw [Int.emod_eq_of_lt (by omega) (by omega)]
  omega

/-- A nonzero read with no injected faults that runs past the end of the
stream fails with the end-of-stream error. -/
theorem readBytes_eof {rs : RS} {n : Nat} (hn : n ≠ 0)
    (hf : ∀ k, k < n → rs.badRead (rs.pos + k) = none)
    (hl : rs.bytes.length < rs.pos + n) :
    readBytes rs n = Except.error (Err.io 0) := by
  unfold readBytes
  rw [if_neg hn, firstBadRead_none_of hf, if_neg (by omega)]

/-- A successfully read and validated descriptor advances the loop. -/
theorem descLoop_step {rs : RS} {bound offset : Nat} {acc : List Field}
    {bs : List Nat} {rs2 : RS}
    (hlt : offset < bound) (h : readBytes rs 32 = Except.ok (bs, rs2))
    (hval : (parseField bs).type = 67 ∨ (parseField bs).type = 78 ∨ (parseField bs).type = 70) :
    descLoop rs bound offset acc =
      descLoop rs2 bound ((offset + 32) % 65536) (acc ++ [parseField bs]) := by
  rw [descLoop, if_pos hlt]
  split
  · rename_i a heq
    rw [h] at heq
    exact absurd heq (by simp)
  · rename_i bs2 rs22 heq
    rw [h] at heq
    simp only [Except.ok.injEq, Prod.mk.injEq] at heq
    obtain ⟨hbs, hrs⟩ := heq
    subst hbs
    subst hrs
    simp [validate, hval]

/-- The loop stops, delivering its accumulator, once the running offset
reaches the bound. -/
theorem descLoop_done {rs : RS} {bound offset : Nat} {acc : List Field}
    (h : ¬ offset < bound) : descLoop rs bound offset acc = Except.ok (acc, rs) := by
  rw [descLoop, if_neg h]

/-- Composition of a fully successful NewReader run. -/
theorem newReader_eq_ok {rs rs0 rs1 rs2 rs3 rs4 : RS} {hb tb : List Nat}
    {fields : List Field}
    (h0 : seek rs 0 = Except.ok rs0)
    (h1 : readBytes rs0 12 = Except.ok (hb, rs1))
    (h2 : hb.getD 0 0 = 3)
    (h3 : seek rs1 32 = Except.ok rs2)
    (h4 : descLoop rs2 ((le16 hb 8 + 65535) % 65536) 32 [] = Except.ok (fields, rs3))
    (h5 : readBytes rs3 1 = Except.ok (tb, rs4))
    (h6 : tb.getD 0 0 = 13) :
    NewReader rs = Except.ok
      { year := 1900 + hb.getD 1 0, month := hb.getD 2 0, day := hb.getD 3 0,
        length := le32 hb 4, fields := fields, headerLength := le16 hb 8,
        recordLength := le16 hb 10 } := by
  unfold NewReader
  simp only [h0, h1, h3, h4, h5]
  rw [if_pos h2, if_pos h6]

/-! The claims. -/

/-- C1: for every field of a live record, Reader.Read converts the
whitespace-trimmed raw bytes by the declared type of the field, as described by
specFieldValue — Float: empty trimmed text is the float zero, otherwise
the float parse; Numeric: empty is the integer zero, a positive
decimal-place count gives the float parse, otherwise the integer parse;
Character: empty is the empty text, otherwise the Windows-1251 decoding —
and the decoded value is found in the returned record under the trimmed
field name; moreover, if the trimmed text of any field is unparsable,
the read fails with a strconv NumError. -/
theorem read_converts_fields_by_declared_type (r : Reader) (i : Nat) (rs : RS)
    (hseek : rs.badSeek (recOffset r i) = none)
    (hv : ∀ f ∈ r.fields, f.type = 67 ∨ f.type = 78 ∨ f.type = 70) :
    (∀ rec, Reader.Read r i rs = Except.ok rec → (r.fields.map fieldName).Nodup →
      ∀ j, j < r.fields.length →
        ∃ v, specFieldValue (r.fields.getD j zeroField)
            (sliceAt rs.bytes (recOffset r i + 1 + prefLen r.fields j)
              (r.fields.getD j zeroField).len) = some v ∧
          lookupRec rec (fieldName (r.fields.getD j zeroField)) = some v) ∧
    ((∀ k, k < 1 + totalLen r.fields → rs.badRead (recOffset r i + k) = none) →
      recOffset r i + 1 + totalLen r.fields ≤ rs.bytes.length →
      rs.bytes.getD (recOffset r i) 0 = 32 →
      (∃ j, j < r.fields.length ∧
        specFieldValue (r.fields.getD j zeroField)
          (sliceAt rs.bytes (recOffset r i + 1 + prefLen r.fields j)
            (r.fields.getD j zeroField).len) = none) →
      ∃ fn t, Reader.Read r i rs = Except.error (Err.numError fn t)) := by
  constructor
  · intro rec h hnd j hj
    rw [read_eq_readBody_of_seek_none hseek] at h
    obtain ⟨db, rs2, rsF, hflag, h32, hloop⟩ := readBody_ok_destruct h
    obtain ⟨hb2, -, -, hp2, -, -⟩ := readBytes_ok hflag
    have hb2A : rs2.bytes = rs.bytes := hb2
    have hp2A : rs2.pos = recOffset r i + 1 := hp2
    obtain ⟨-, -, vs, hlen, hconv, hrec⟩ := fieldLoop_ok hloop
    have hjv : j < vs.length := by rw [hlen]; exact hj
    have hmem : r.fields.getD j zeroField ∈ r.fields := by
      rw [List.getD_eq_getElem _ _ hj]
      exact List.getElem_mem hj
    have hconvj := hconv j hj
    rw [hb2A, hp2A] at hconvj
    have hspec := ((convert_trim_spec (r.fields.getD j zeroField) _ (hv _ hmem)).1
      (vs.getD j (Value.vInt 0))).mp hconvj
    have hjz : j < (List.zip (r.fields.map fieldName) vs).length := by
      rw [List.length_zip, List.length_map, hlen]
      omega
    have hfst : (List.zip (r.fields.map fieldName) vs).map Prod.fst =
        r.fields.map fieldName :=
      List.map_fst_zip _ _ (by rw [List.length_map, hlen])
    have hnd2 : ((List.zip (r.fields.map fieldName) vs).map Prod.fst).Nodup := by
      rw [hfst]
      exact hnd
    have hlook := lookupRec_foldl_nodup (List.zip (r.fields.map fieldName) vs) [] hnd2 j hjz
    have hzj : (List.zip (r.fields.map fieldName) vs).getD j ([], Value.vInt 0) =
        (fieldName (r.fields.getD j zeroField), vs.getD j (Value.vInt 0)) := by
      rw [List.getD_eq_getElem _ _ hjz, List.getElem_zip, List.getElem_map,
        List.getD_eq_getElem _ _ hj, List.getD_eq_getElem _ _ hjv]
    rw [hzj] at hlook
    refine ⟨vs.getD j (Value.vInt 0), hspec, ?_⟩
    rw [hrec]
    exact hlook
  · intro hbr hlen h32 hex
    rw [read_eq_readBody_of_seek_none hseek]
    have hoff : recOffset r i < rs.bytes.length := by omega
    have hfr : readBytes { rs with pos := recOffset r i } 1 =
        Except.ok ([rs.bytes.getD (recOffset r i) 0],
          { rs with pos := recOffset r i + 1 }) := by
      have h1 := @readBytes_eq_ok { rs with pos := recOffset r i } 1
        (fun k hk => by
          have hk0 : k = 0 := by omega
          subst hk0
          simpa using hbr 0 (by omega))
        (show recOffset r i + 1 ≤ rs.bytes.length by omega)
      rw [h1, sliceAt_one hoff]
    obtain ⟨fn, t, hfl⟩ := @fieldLoop_first_none r.fields
      { rs with pos := recOffset r i + 1 } [] hv
      (fun k hk => by simpa [Nat.add_assoc] using hbr (1 + k) (by omega))
      (show recOffset r i + 1 + totalLen r.fields ≤ rs.bytes.length by omega)
      hex
    refine ⟨fn, t, ?_⟩
    unfold readBody
    rw [hfr]
    simp only [List.getD_cons_zero, h32]
    norm_num
    rw [hfl]

/-- Witness for C1: the live record decodes its Numeric field to the
integer 42 found under the trimmed name ID, and a record whose field text
is unparsable fails the read with a NumError. -/
theorem read_converts_fields_witness :
    Reader.Read rdrW 0 rsW = Except.ok recW ∧
    (∃ v, specFieldValue (rdrW.fields.getD 0 zeroField)
        (sliceAt rsW.bytes (recOffset rdrW 0 + 1 + prefLen rdrW.fields 0)
          (rdrW.fields.getD 0 zeroField).len) = some v ∧
      lookupRec recW (fieldName (rdrW.fields.getD 0 zeroField)) = some v) ∧
    (∃ fn t, Reader.Read rdrW 0 rsBadNum = Except.error (Err.numError fn t)) := by
  refine ⟨rfl, ?_, ?_⟩
  · exact (read_converts_fields_by_declared_type rdrW 0 rsW rfl (by decide)).1 recW rfl
      (by decide) 0 (by decide)
  · exact (read_converts_fields_by_declared_type rdrW 0 rsBadNum rfl (by decide)).2
      (fun k hk => rfl) (by decide) rfl ⟨0, by decide, by decide⟩

/-- C2: after seeking to the record, exactly one of three outcomes follows
from the first byte read: the space character continues the decode into
the field loop; the asterisk fails the call with RecordDeleted naming the
index, decoding no field; any other byte fails the call with
CorruptDeletionFlag naming the index and the byte, decoding no field. -/
theorem read_deletion_flag_trichotomy (r : Reader) (i : Nat) (rs : RS)
    (hseek : rs.badSeek (recOffset r i) = none)
    (hread : rs.badRead (recOffset r i) = none)
    (hlen : recOffset r i < rs.bytes.length) :
    (rs.bytes.getD (recOffset r i) 0 = 32 →
      Reader.Read r i rs =
        match fieldLoop r.fields { rs with pos := recOffset r i + 1 } [] with
        | Except.error e => Except.error e
        | Except.ok (rec, _) => Except.ok rec) ∧
    (rs.bytes.getD (recOffset r i) 0 = 42 →
      Reader.Read r i rs = Except.error (Err.recordDeleted i)) ∧
    (∀ b, rs.bytes.getD (recOffset r i) 0 = b → b ≠ 32 → b ≠ 42 →
      Reader.Read r i rs = Except.error (Err.corruptDeletionFlag i b)) := by
  have hfr : readBytes { rs with pos := recOffset r i } 1 =
      Except.ok ([rs.bytes.getD (recOffset r i) 0], { rs with pos := recOffset r i + 1 }) := by
    have h1 : readBytes { rs with pos := recOffset r i } 1 =
        Except.ok (sliceAt rs.bytes (recOffset r i) 1, { rs with pos := recOffset r i + 1 }) :=
      readBytes_eq_ok
        (fun k hk => by
          have hk0 : k = 0 := by omega
          subst hk0
          simpa using hread)
        (show recOffset r i + 1 ≤ rs.bytes.length by omega)
    rw [h1, sliceAt_one hlen]
  refine ⟨?_, ?_, ?_⟩
  · intro h32
    rw [read_eq_readBody_of_seek_none hseek]
    unfold readBody
    rw [hfr]
    simp only [List.getD_cons_zero, h32]
    norm_num
  · intro h42
    rw [read_eq_readBody_of_seek_none hseek]
    unfold readBody
    rw [hfr]
    simp only [List.getD_cons_zero, h42]
    norm_num
  · intro b hb h32 h42
    rw [read_eq_readBody_of_seek_none hseek]
    unfold readBody
    rw [hfr]
    simp only [List.getD_cons_zero, hb]
    rw [if_neg h42, if_neg h32]

/-- Witness for C2 at concrete streams: a deleted record, a corrupt flag
byte, and a live record continuing into the field loop. -/
theorem read_deletion_flag_trichotomy_witness :
    Reader.Read rdrW 0 rsDel = Except.error (Err.recordDeleted 0) ∧
    Reader.Read rdrW 0 rsCor = Except.error (Err.corruptDeletionFlag 0 88) ∧
    Reader.Read rdrW 0 rsW =
      match fieldLoop rdrW.fields { rsW with pos := recOffset rdrW 0 + 1 } [] with
      | Except.error e => Except.error e
      | Except.ok (rec, _) => Except.ok rec :=
  ⟨(read_deletion_flag_trichotomy rdrW 0 rsDel rfl rfl (by decide)).2.1 rfl,
   (read_deletion_flag_trichotomy rdrW 0 rsCor rfl rfl (by decide)).2.2 88 rfl
     (by decide) (by decide),
   (read_deletion_flag_trichotomy rdrW 0 rsW rfl rfl (by decide)).1 rfl⟩

/-- C3: Reader.Read seeks to the absolute byte offset headerLength +
recordLength * index; it performs no bounds check of the index against the
declared record count (the result never depends on the count), and a call
past the end of the stream yields the error of the underlying read
(end-of-stream), not a dedicated out-of-range error. -/
theorem read_offset_formula_no_bounds_check (r : Reader) (i : Nat) (rs : RS) :
    recOffset r i = r.headerLength + r.recordLength * i ∧
    (∀ n, Reader.Read { r with length := n } i rs = Reader.Read r i rs) ∧
    (rs.badSeek (recOffset r i) = none →
      Reader.Read r i rs = readBody r i { rs with pos := recOffset r i }) ∧
    (rs.badSeek (recOffset r i) = none → rs.badRead (recOffset r i) = none →
      rs.bytes.length ≤ recOffset r i →
      Reader.Read r i rs = Except.error (Err.io 0)) := by
  refine ⟨rfl, fun n => rfl, read_eq_readBody_of_seek_none, ?_⟩
  intro hs hr hlen
  rw [read_eq_readBody_of_seek_none hs]
  have hfr : readBytes { rs with pos := recOffset r i } 1 = Except.error (Err.io 0) :=
    readBytes_eof (by omega)
      (fun k hk => by
        have hk0 : k = 0 := by omega
        subst hk0
        simpa using hr)
      (show rs.bytes.length < recOffset r i + 1 by omega)
  unfold readBody
  rw [hfr]

/-- Witness for C3: the offset formula, insensitivity of the call to the
declared count, and the end-of-stream error past the end. -/
theorem read_offset_formula_witness :
    recOffset rdrW 0 = rdrW.headerLength + rdrW.recordLength * 0 ∧
    Reader.Read { rdrW with length := 7 } 0 rsW = Reader.Read rdrW 0 rsW ∧
    Reader.Read rdrW 0 rsEmpty = Except.error (Err.io 0) :=
  ⟨(read_offset_formula_no_bounds_check rdrW 0 rsW).1,
   (read_offset_formula_no_bounds_check rdrW 0 rsW).2.1 7,
   (read_offset_formula_no_bounds_check rdrW 0 rsEmpty).2.2.2 rfl rfl (by decide)⟩

/-- C4 counterexample: the claim that a failure of the initial seek is
propagated is false.  Here the stream fails the seek to the record offset
5 with error code 7, yet Reader.Read returns a successfully decoded
record: the seek error is only logged, never returned. -/
theorem read_seek_error_not_propagated :
    rsSeekFail.badSeek (recOffset rdrSeek 0) = some 7 ∧
    Reader.Read rdrSeek 0 rsSeekFail = Except.ok [] :=
  ⟨rfl, rfl⟩

/-- C4 amended: every failure of an underlying read during the call — the
deletion-flag read or a field read — is returned immediately and verbatim;
a failure of the initial seek, however, is not returned: the call
continues decoding from the current cursor position. -/
theorem read_error_propagation (r : Reader) (i : Nat) (rs rs1 rs2 : RS)
    (rec : Record) (f : Field) (fs : List Field) (e : Err) (c : Nat) :
    (rs.badSeek (recOffset r i) = some c → Reader.Read r i rs = readBody r i rs) ∧
    (readBytes rs1 1 = Except.error e → readBody r i rs1 = Except.error e) ∧
    (readBytes rs2 f.len = Except.error e →
      fieldLoop (f :: fs) rs2 rec = Except.error e) := by
  refine ⟨fun h => read_eq_readBody_of_seek_some h, fun h => ?_, fun h => ?_⟩
  · unfold readBody
    rw [h]
  · rw [fieldLoop, h]

/-- Witness for C4: the swallowed seek on the concrete failing-seek
stream, and verbatim propagation of the end-of-stream read failure from
the flag read and from a field read. -/
theorem read_error_propagation_witness :
    Reader.Read rdrSeek 0 rsSeekFail = readBody rdrSeek 0 rsSeekFail ∧
    readBody rdrW 0 rsEmpty = Except.error (Err.io 0) ∧
    fieldLoop (fieldID :: []) rsEmpty [] = Except.error (Err.io 0) :=
  ⟨(read_error_propagation rdrSeek 0 rsSeekFail rsEmpty rsEmpty [] fieldID [] (Err.io 0) 7).1 rfl,
   (read_error_propagation rdrW 0 rsEmpty rsEmpty rsEmpty [] fieldID [] (Err.io 0) 7).2.1 rfl,
   (read_error_propagation rdrW 0 rsEmpty rsEmpty rsEmpty [] fieldID [] (Err.io 0) 7).2.2 rfl⟩

/-- C5: after the last field descriptor, NewReader reads exactly one more
byte; if that byte is not 0x0D the open fails with the header-length
mismatch error reporting both the declared header length and the byte
found. -/
theorem newReader_terminator_mismatch (rs rs0 rs1 rs2 rs3 rs4 : RS)
    (hb tb : List Nat) (fields : List Field)
    (h0 : seek rs 0 = Except.ok rs0)
    (h1 : readBytes rs0 12 = Except.ok (hb, rs1))
    (h2 : hb.getD 0 0 = 3)
    (h3 : seek rs1 32 = Except.ok rs2)
    (h4 : descLoop rs2 ((le16 hb 8 + 65535) % 65536) 32 [] = Except.ok (fields, rs3))
    (h5 : readBytes rs3 1 = Except.ok (tb, rs4))
    (h6 : tb.getD 0 0 ≠ 13) :
    NewReader rs = Except.error (Err.headerLengthMismatch (le16 hb 8) (tb.getD 0 0)) := by
  unfold NewReader
  simp only [h0, h1, h3, h4, h5]
  rw [if_pos h2, if_neg h6]

/-- Witness for C5: a concrete stream whose terminator byte is 7 instead
of 0x0D fails with the mismatch error naming the declared length 65 and
the byte 7. -/
theorem newReader_terminator_mismatch_witness :
    NewReader (rsOf fileBadTerm) = Except.error (Err.headerLengthMismatch 65 7) := by
  have h4 : descLoop (rsAt fileBadTerm 32)
      ((le16 (sliceAt fileBadTerm 0 12) 8 + 65535) % 65536) 32 [] =
      Except.ok ([fieldID], rsAt fileBadTerm 64) := by
    show descLoop (rsAt fileBadTerm 32) 64 32 [] = Except.ok ([fieldID], rsAt fileBadTerm 64)
    rw [@descLoop_step (rsAt fileBadTerm 32) 64 32 [] (sliceAt fileBadTerm 32 32)
      (rsAt fileBadTerm 64) (by decide) rfl (by decide)]
    rw [@descLoop_done (rsAt fileBadTerm 64) 64 ((32 + 32) % 65536)
      ([] ++ [parseField (sliceAt fileBadTerm 32 32)]) (by decide)]
    rfl
  exact newReader_terminator_mismatch (rsOf fileBadTerm) _ _ _ _ _ _ _ _
    rfl rfl rfl rfl h4 rfl (by decide)

/-- C6: every parsed field descriptor must carry one of the type tags C,
N or F; every field of a successfully opened table passed that validation,
an invalid tag fails validation with an error naming the tag, the
descriptor loop fails on the first such descriptor, and NewReader turns
that failure into a failed open, producing no table. -/
theorem newReader_field_type_validation :
    (∀ (rs : RS) (reader : Reader), NewReader rs = Except.ok reader →
      ∀ f ∈ reader.fields, f.type = 67 ∨ f.type = 78 ∨ f.type = 70) ∧
    (∀ f : Field, ¬(f.type = 67 ∨ f.type = 78 ∨ f.type = 70) →
      validate f = Except.error (Err.unrecognizedFieldType f.type)) ∧
    (∀ (rs : RS) (bound offset : Nat) (acc : List Field) (bs : List Nat) (rs2 : RS),
      offset < bound → readBytes rs 32 = Except.ok (bs, rs2) →
      ¬((parseField bs).type = 67 ∨ (parseField bs).type = 78 ∨ (parseField bs).type = 70) →
      descLoop rs bound offset acc =
        Except.error (Err.unrecognizedFieldType (parseField bs).type)) ∧
    (∀ (rs rs0 rs1 rs2 : RS) (hb : List Nat) (e : Err),
      seek rs 0 = Except.ok rs0 → readBytes rs0 12 = Except.ok (hb, rs1) →
      hb.getD 0 0 = 3 → seek rs1 32 = Except.ok rs2 →
      descLoop rs2 ((le16 hb 8 + 65535) % 65536) 32 [] = Except.error e →
      NewReader rs = Except.error e) := by
  refine ⟨?_, ?_, ?_, ?_⟩
  · intro rs reader h f hf
    obtain ⟨rs2, bound, rs3, hd⟩ := newReader_ok_fields h
    exact descLoop_ok_valid rs2 bound 32 [] hd (fun g hg => absurd hg (by simp)) f hf
  · intro f hf
    unfold validate
    rw [if_neg hf]
  · intro rs bound offset acc bs rs2 hlt hr hval
    exact descLoop_invalid_type hlt hr hval
  · intro rs rs0 rs1 rs2 hb e h0 h1 h2 h3 h4
    exact newReader_desc_error h0 h1 h2 h3 h4

/-- Witness for C6: the field of a successfully opened concrete table has
a recognized tag; a descriptor with tag 88 fails validation, fails the
loop, and fails the whole open, naming 88. -/
theorem newReader_field_type_validation_witness :
    (fieldID.type = 67 ∨ fieldID.type = 78 ∨ fieldID.type = 70) ∧
    validate fieldBad = Except.error (Err.unrecognizedFieldType 88) ∧
    descLoop (rsAt fileBadType 32) 64 32 [] =
      Except.error (Err.unrecognizedFieldType 88) ∧
    NewReader (rsOf fileBadType) = Except.error (Err.unrecognizedFieldType 88) := by
  have hok : NewReader (rsOf fileGood) = Except.ok rdrGood := by
    have h4 : descLoop (rsAt fileGood 32)
        ((le16 (sliceAt fileGood 0 12) 8 + 65535) % 65536) 32 [] =
        Except.ok ([fieldID], rsAt fileGood 64) := by
      show descLoop (rsAt fileGood 32) 64 32 [] = Except.ok ([fieldID], rsAt fileGood 64)
      rw [@descLoop_step (rsAt fileGood 32) 64 32 [] (sliceAt fileGood 32 32)
        (rsAt fileGood 64) (by decide) rfl (by decide)]
      rw [@descLoop_done (rsAt fileGood 64) 64 ((32 + 32) % 65536)
        ([] ++ [parseField (sliceAt fileGood 32 32)]) (by decide)]
      rfl
    exact @newReader_eq_ok (rsOf fileGood) _ _ _ _ _ _ _ _ rfl rfl rfl rfl h4 rfl rfl
  refine ⟨?_, ?_, ?_, ?_⟩
  · exact newReader_field_type_validation.1 (rsOf fileGood) rdrGood hok fieldID (by decide)
  · exact newReader_field_type_validation.2.1 fieldBad (by decide)
  · exact newReader_field_type_validation.2.2.1 (rsAt fileBadType 32) 64 32 []
      (sliceAt fileBadType 32 32) (rsAt fileBadType 64) (by decide) rfl (by decide)
  · have h4 : descLoop (rsAt fileBadType 32)
        ((le16 (sliceAt fileBadType 0 12) 8 + 65535) % 65536) 32 [] =
        Except.error (Err.unrecognizedFieldType 88) := by
      show descLoop (rsAt fileBadType 32) 64 32 [] =
        Except.error (Err.unrecognizedFieldType 88)
      exact newReader_field_type_validation.2.2.1 (rsAt fileBadType 32) 64 32 []
        (sliceAt fileBadType 32 32) (rsAt fileBadType 64) (by decide) rfl (by decide)
    exact newReader_field_type_validation.2.2.2 (rsOf fileBadType) _ _ _ _ _
      rfl rfl rfl rfl h4

/-- C7: a stream whose header parses but whose version byte is not 0x03
fails the open with the unsupported-version error, before any field
descriptor is read: the result is the same for every continuation of the
stream past the 12 header bytes. -/
theorem newReader_unsupported_version (pre rest : List Nat)
    (bs br : Nat → Option Nat) (pos : Nat)
    (hlen : pre.length = 12)
    (hseek : bs 0 = none)
    (hread : ∀ k, k < 12 → br k = none)
    (hv : pre.getD 0 0 ≠ 3) :
    NewReader ⟨pre ++ rest, pos, bs, br⟩ =
      Except.error (Err.unsupportedVersion (pre.getD 0 0)) := by
  have h0 : seek (⟨pre ++ rest, pos, bs, br⟩ : RS) 0 =
      Except.ok ⟨pre ++ rest, 0, bs, br⟩ := by
    simp [seek, hseek]
  have h1 : readBytes (⟨pre ++ rest, 0, bs, br⟩ : RS) 12 =
      Except.ok (pre, ⟨pre ++ rest, 12, bs, br⟩) := by
    have h2 := @readBytes_eq_ok ⟨pre ++ rest, 0, bs, br⟩ 12
      (fun k hk => by simpa using hread k hk)
      (by simp [hlen])
    rw [h2]
    simp [sliceAt, List.take_left' hlen]
  unfold NewReader
  simp only [h0, h1]
  rw [if_neg hv]

/-- Witness for C7: a concrete stream with version byte 7 fails with the
unsupported-version error naming 7. -/
theorem newReader_unsupported_version_witness :
    NewReader (rsOf fileBadVersion) = Except.error (Err.unsupportedVersion 7) :=
  newReader_unsupported_version fileBadVersion [] (fun _ => none) (fun _ => none) 0
    rfl rfl (fun k hk => rfl) (by decide)

/-- C8: whenever Reader.Read succeeds, the returned record is complete:
it is the fold of one inserted decoded value per declared field, so no
partially populated mapping is ever returned (every failure path returns
an error and no record). -/
theorem read_ok_full_record (r : Reader) (i : Nat) (rs : RS) (rec : Record)
    (h : Reader.Read r i rs = Except.ok rec) :
    ∃ vs : List Value, vs.length = r.fields.length ∧ rec = mkRecord r.fields vs := by
  obtain ⟨rs1, db, rs2, rsF, hflag, h32, hloop⟩ := read_ok_destruct h
  obtain ⟨-, -, vs, hlen, -, hrec⟩ := fieldLoop_ok hloop
  exact ⟨vs, hlen, hrec⟩

/-- Witness for C8 at the concrete live record. -/
theorem read_ok_full_record_witness :
    ∃ vs : List Value, vs.length = rdrW.fields.length ∧ recW = mkRecord rdrW.fields vs :=
  read_ok_full_record rdrW 0 rsW recW rfl

/-- C9: a failed read of a 32-byte field descriptor during open is only
printed as a diagnostic, but the open still fails structurally: the
zero-valued descriptor left behind fails type-tag validation, the loop
returns that unrecognized-type error for tag 0, and NewReader propagates
it — no construction-time read failure yields a successfully opened
table. -/
theorem newReader_descriptor_read_failure :
    validate zeroField = Except.error (Err.unrecognizedFieldType 0) ∧
    (∀ (rs : RS) (bound offset : Nat) (acc : List Field) (e : Err),
      offset < bound → readBytes rs 32 = Except.error e →
      descLoop rs bound offset acc = Except.error (Err.unrecognizedFieldType 0)) ∧
    (∀ (rs rs0 rs1 rs2 : RS) (hb : List Nat) (e : Err),
      seek rs 0 = Except.ok rs0 → readBytes rs0 12 = Except.ok (hb, rs1) →
      hb.getD 0 0 = 3 → seek rs1 32 = Except.ok rs2 →
      descLoop rs2 ((le16 hb 8 + 65535) % 65536) 32 [] = Except.error e →
      NewReader rs = Except.error e) :=
  ⟨validate_zeroField,
   fun rs bound offset acc e hlt hr => descLoop_read_error hlt hr,
   fun rs rs0 rs1 rs2 hb e h0 h1 h2 h3 h4 => newReader_desc_error h0 h1 h2 h3 h4⟩

/-- Witness for C9: a stream truncated inside the first descriptor makes
the loop, and the whole open, fail with the unrecognized type tag 0. -/
theorem newReader_descriptor_read_failure_witness :
    descLoop (rsAt fileShortDesc 32) 64 32 [] =
      Except.error (Err.unrecognizedFieldType 0) ∧
    NewReader (rsOf fileShortDesc) = Except.error (Err.unrecognizedFieldType 0) := by
  constructor
  · exact newReader_descriptor_read_failure.2.1 (rsAt fileShortDesc 32) 64 32 []
      (Err.io 0) (by decide) rfl
  · have h4 : descLoop (rsAt fileShortDesc 32)
        ((le16 (sliceAt fileShortDesc 0 12) 8 + 65535) % 65536) 32 [] =
        Except.error (Err.unrecognizedFieldType 0) := by
      show descLoop (rsAt fileShortDesc 32) 64 32 [] =
        Except.error (Err.unrecognizedFieldType 0)
      exact newReader_descriptor_read_failure.2.1 (rsAt fileShortDesc 32) 64 32 []
        (Err.io 0) (by decide) rfl
    exact newReader_descriptor_read_failure.2.2 (rsOf fileShortDesc) _ _ _ _ _
      rfl rfl rfl rfl h4

/-- C10: the index parameter of Reader.Read is a uint16 while the declared
record count is a uint32, so a declared count (such as 65536) can exceed
every representable index — records from index 65536 on are unaddressable;
for representable inputs the int64 offset computation
headerLength + recordLength * index is exact and cannot overflow. -/
theorem read_index_uint16_offset_int64_exact :
    (∀ hl rl i : Nat, hl < 2 ^ 16 → rl < 2 ^ 16 → indexRepresentable i →
      recordOffsetI64 hl rl i = ((hl + rl * i : Nat) : Int) ∧ hl + rl * i < 2 ^ 63) ∧
    (∀ i : Nat, indexRepresentable i → i ≤ 65535) ∧
    countRepresentable 65536 ∧ ¬ indexRepresentable 65536 := by
  have e16 : (2 : Nat) ^ 16 = 65536 := by norm_num
  have e63n : (2 : Nat) ^ 63 = 9223372036854775808 := by norm_num
  have e63 : (2 : Int) ^ 63 = 9223372036854775808 := by norm_num
  refine ⟨?_, ?_, ?_, ?_⟩
  · intro hl rl i hhl hrl hi
    have hi2 : i < 65536 := by
      have h3 := hi
      simp only [indexRepresentable, e16] at h3
      exact h3
    rw [e16] at hhl hrl
    have hm : rl * i ≤ 65535 * 65535 := Nat.mul_le_mul (by omega) (by omega)
    have hcast : (rl : Int) * (i : Int) = ((rl * i : Nat) : Int) := by
      push_cast
      ring
    have hmI : ((rl * i : Nat) : Int) ≤ 4294836225 := by
      have h4 : (rl * i : Nat) ≤ 4294836225 := by omega
      exact_mod_cast h4
    have hw1 : i64wrap ((rl : Int) * (i : Int)) = ((rl * i : Nat) : Int) := by
      rw [hcast]
      refine i64wrap_eq_of_range (Int.natCast_nonneg _) ?_
      rw [e63]
      omega
    constructor
    · unfold recordOffsetI64
      rw [hw1]
      have hcast2 : (hl : Int) + ((rl * i : Nat) : Int) = ((hl + rl * i : Nat) : Int) := by
        push_cast
        ring
      rw [hcast2]
      refine i64wrap_eq_of_range (Int.natCast_nonneg _) ?_
      rw [e63]
      have h5 : ((hl + rl * i : Nat) : Int) ≤ 65535 + 4294836225 := by
        have h6 : (hl + rl * i : Nat) ≤ 65535 + 4294836225 := by omega
        exact_mod_cast h6
      omega
    · rw [e63n]
      omega
  · intro i hi
    have h7 : i < 65536 := by
      simpa [indexRepresentable, e16] using hi
    omega
  · norm_num [countRepresentable]
  · norm_num [indexRepresentable]

/-- Witness for C10 at the largest representable inputs. -/
theorem read_index_uint16_offset_int64_exact_witness :
    recordOffsetI64 65535 65535 65535 = ((65535 + 65535 * 65535 : Nat) : Int) ∧
    65535 + 65535 * 65535 < 2 ^ 63 :=
  read_index_uint16_offset_int64_exact.1 65535 65535 65535 (by norm_num) (by norm_num)
    (by norm_num [indexRepresentable])

end Dbf
